import Mathlib

/-!
Shallow embedding of the retrieval-routing and caching engine of the
property-management RAG repository (backend/Rag_System/rag3.py and
backend/main.py), together with proofs of the spec's claims about it.

Python strings are modelled as Lean `String` (ASCII case folding, code-point
lexicographic order, matching CPython for the ASCII data handled here);
Python `None` is modelled as `Option.none`; a raised exception is modelled
as `Except.error`. Python float values that merely parameterize claims
(clock readings, TTLs, backoff delays) are modelled as exact rationals `ℚ`;
where the rounding of float arithmetic itself decides a claim — the
embedding-centroid computation of `average_embeddings` — doubles are
modelled as dyadic rationals with 53-bit round-to-nearest-even arithmetic,
which is IEEE binary64 in the absence of overflow and underflow.
-/

/-! ## String utilities (models of the Python primitives used by the source) -/

/-- Model of `str.lower()` for ASCII text. -/
def pyLower (s : String) : String := ⟨s.data.map Char.toLower⟩

/-- Model of `str.upper()` for ASCII text. -/
def pyUpper (s : String) : String := ⟨s.data.map Char.toUpper⟩

/-- Model of `s[:n]` on a Python string. -/
def pyTake (n : Nat) (s : String) : String := ⟨s.data.take n⟩

/-- Model of `str.rstrip("/")`. -/
def rstripSlash (s : String) : String :=
  ⟨(s.data.reverse.dropWhile (fun c => c == '/')).reverse⟩

/-- Word character in the sense of the regex `\w` (ASCII fragment). -/
def isWordChar (c : Char) : Bool := c.isAlphanum || c == '_'

/-- Word-character test on an optional character; the ends of the string count
as non-word positions for `\b`. -/
def wordOpt : Option Char → Bool
  | none => false
  | some c => isWordChar c

/-- If `pat` is a prefix of `hay`, return the remaining suffix. -/
def dropExact : List Char → List Char → Option (List Char)
  | [], l => some l
  | _ :: _, [] => none
  | p :: ps, c :: cs => if c == p then dropExact ps cs else none

/-- Case-insensitive variant of `dropExact`; `pat` is given in lower case. -/
def dropCI : List Char → List Char → Option (List Char)
  | [], l => some l
  | _ :: _, [] => none
  | p :: ps, c :: cs => if c.toLower == p then dropCI ps cs else none

/-- Model of Python's substring test `needle in hay`. -/
def containsSub (needle : List Char) : List Char → Bool
  | [] => (dropExact needle []).isSome
  | l@(_ :: rest) => (dropExact needle l).isSome || containsSub needle rest

/-- Does the literal `needle` occur at the head of `hay` with a `\b` word
boundary on each side? `prev` is the character just before this position. -/
def wordHitAt (needle : List Char) (prev : Option Char) (hay : List Char) : Bool :=
  match dropExact needle hay with
  | none => false
  | some rest =>
      (wordOpt prev != wordOpt needle.head?) &&
      (wordOpt needle.getLast? != wordOpt rest.head?)

/-- Model of `re.search(rf"\b{re.escape(k)}\b", hay)` viewed as a Boolean:
scan left to right for a whole-word occurrence of the literal `needle`. -/
def wordSearch (needle : List Char) : Option Char → List Char → Bool
  | prev, [] => wordHitAt needle prev []
  | prev, l@(c :: rest) => wordHitAt needle prev l || wordSearch needle (some c) rest

/-- Generic model of `re.search` for a pattern whose first character is a word
character: try the position matcher `pat` at each position whose preceding
character is not a word character (the leading `\b`), left to right, and
return the first extracted match. -/
def searchPat (pat : List Char → Option String) : Option Char → List Char → Option String
  | _, [] => none
  | prev, l@(c :: rest) =>
      if !wordOpt prev then
        match pat l with
        | some m => some m
        | none => searchPat pat (some c) rest
      else searchPat pat (some c) rest

/-- Position matcher for the pattern `X-\d{3}\b` (case-insensitive in the
leading letter `letter`, given lower-case); returns the matched text. -/
def idPatAt (letter : Char) : List Char → Option String
  | c :: '-' :: d1 :: d2 :: d3 :: rest =>
      if c.toLower == letter && d1.isDigit && d2.isDigit && d3.isDigit
          && !wordOpt rest.head? then
        some ⟨[c, '-', d1, d2, d3]⟩
      else none
  | _ => none

/-- Model of `"\n\n".join(parts)`-style joining. -/
def pyJoin (sep : String) : List String → String
  | [] => ""
  | [x] => x
  | x :: y :: xs => x ++ sep ++ pyJoin sep (y :: xs)

/-- Model of `list(sorted(set(xs)))` on strings: drop duplicates, then sort by
the code-point lexicographic order (CPython's `<` on `str`). -/
def pySortedSet (xs : List String) : List String :=
  List.insertionSort (· ≤ ·) xs.dedup

/-! ## Collection routing (rag3.py `COLLECTION_KEYWORDS`, `detect_collections`) -/

/-- The static keyword table `COLLECTION_KEYWORDS` of rag3.py. -/
def COLLECTION_KEYWORDS : List (String × List String) :=
  [("Units", ["unit", "apartment", "floor", "level", "number", "room", "block",
              "building", "lot"]),
   ("Tenants", ["tenant", "name", "contact", "email", "occupant", "resident"]),
   ("Amenities", ["pool", "gym", "facility", "facilities", "amenity",
                  "recreation", "assigned units", "swimming"]),
   ("Maintenance", ["issue", "repair", "broken", "clogged", "maintenance",
                    "status", "request", "fix"]),
   ("Contracts", ["contract", "lease", "rent agreement", "deposit",
                  "start date", "end date", "monthly rent"]),
   ("Rent", ["rent", "payment", "paid", "unpaid", "due", "month"]),
   ("ElecBill", ["electricity", "elec", "bill", "power", "paid", "unpaid"]),
   ("WaterBill", ["water", "bill", "paid", "unpaid"]),
   ("Expenses", ["expense", "cost", "category", "amount", "date", "repair",
                 "maintenance"]),
   ("Staff", ["staff", "employee", "worker", "assigned", "role", "contact"])]

/-- Model of `any(re.search(rf"\b{re.escape(k.lower())}\b", q) for k in keywords)`
where `q` is the already-lowercased query. -/
def keywordHit (q : String) (keywords : List String) : Bool :=
  keywords.any (fun k => wordSearch (pyLower k).data none q.data)

/-- Embedding of rag3.py `detect_collections`. -/
def detect_collections (user_query : String) : List String :=
  let q := pyLower user_query
  let selected := (COLLECTION_KEYWORDS.filter (fun p => keywordHit q p.2)).map (·.1)
  if selected.isEmpty then ["Units"] else selected

/-! ## Query expansion (rag3.py `expand_query`) -/

/-- Embedding of rag3.py `expand_query`. -/
def expand_query (user_query : String) : List String :=
  let expansions := [user_query]
  let expansions := expansions ++
    (match searchPat (idPatAt 'u') none user_query.data with
     | some m =>
        let unit_id := pyUpper m
        ["Unit " ++ unit_id, "Apartment " ++ unit_id, "Property " ++ unit_id]
     | none => [])
  let expansions := expansions ++
    (if containsSub "rent".data (pyLower user_query).data then
      ["lease", "rental fee", "monthly rent"] else [])
  let expansions := expansions ++
    (if containsSub "tenant".data (pyLower user_query).data then
      ["occupant", "resident", "renter"] else [])
  pySortedSet expansions

/-! ## Embedding centroid (rag3.py `average_embeddings`) -/

/-- Model of `zip(*rows)` for a non-empty argument pack `first :: rest`:
produce one column per index until the shortest row is exhausted. -/
def zipCols {α : Type} : List α → List (List α) → List (List α)
  | [], _ => []
  | x :: xs, rest =>
    if rest.any List.isEmpty then []
    else (x :: rest.map (fun l => l.headD x)) :: zipCols xs (rest.map List.tail)

/-- A finite IEEE double, represented by the exact dyadic rational
`m * 2 ^ e` it denotes. The model below implements 53-bit precision with
round-to-nearest, ties to even, and an unbounded exponent: it coincides
with binary64 wherever no overflow or underflow occurs (all values arising
in the claims here). -/
structure Dyadic where
  m : ℤ
  e : ℤ
deriving DecidableEq

/-- Number of binary digits of `n`, computed with structural fuel so that it
reduces in the kernel; `bitsFuel f n` is exact whenever `f ≥` the bit count,
and the wrapper passes `n` itself, which always suffices. -/
def bitsFuel : ℕ → ℕ → ℕ
  | 0, _ => 0
  | f + 1, n => if n = 0 then 0 else bitsFuel f (n / 2) + 1

/-- Bit length of a natural number (`0` for `0`). -/
def natBits (n : ℕ) : ℕ := bitsFuel n n

/-- Divide powers of two out of a non-zero mantissa (fuel: its bit length,
which bounds the number of trailing zero bits). -/
def oddify : ℕ → ℤ → ℤ → Dyadic
  | 0, m, e => ⟨m, e⟩
  | f + 1, m, e => if m % 2 = 0 then oddify f (m / 2) (e + 1) else ⟨m, e⟩

/-- Canonical form of a dyadic: zero is `⟨0, 0⟩`, otherwise the mantissa is
odd. Distinct canonical dyadics denote distinct rationals, so structural
equality of canonical results is value equality. -/
def normDyadic (d : Dyadic) : Dyadic :=
  if d.m = 0 then ⟨0, 0⟩ else oddify (natBits d.m.natAbs) d.m d.e

/-- Integer rounding of `num / den` to nearest, ties to even (`den ≥ 1`). -/
def roundNearestEven (num den : ℕ) : ℕ :=
  let q0 := num / den
  let r2 := 2 * (num % den)
  if r2 < den then q0
  else if den < r2 then q0 + 1
  else if q0 % 2 = 0 then q0 else q0 + 1

/-- Round an exact dyadic to 53 significant bits, nearest, ties to even. -/
def round53 (d : Dyadic) : Dyadic :=
  if d.m = 0 then ⟨0, 0⟩
  else
    let a := d.m.natAbs
    let bits := natBits a
    if bits ≤ 53 then normDyadic d
    else
      let k := bits - 53
      let sig := roundNearestEven a (2 ^ k)
      normDyadic ⟨if d.m < 0 then -(sig : ℤ) else (sig : ℤ), d.e + k⟩

/-- IEEE addition of two doubles: the exact sum (a dyadic) rounded once. -/
def flAdd (x y : Dyadic) : Dyadic :=
  let e := min x.e y.e
  round53 ⟨x.m * 2 ^ (x.e - e).toNat + y.m * 2 ^ (y.e - e).toNat, e⟩

/-- IEEE division of a double by a positive integer (Python `float / int`,
the only division `average_embeddings` performs): the exact rational
quotient rounded once. `f` is the floor of the quotient's base-2 logarithm,
so the rounded significand lands in `[2^52, 2^53]`. The `n = 0` guard is
unreachable in context (Python would raise `ZeroDivisionError`). -/
def flDivNat (x : Dyadic) (n : ℕ) : Dyadic :=
  if x.m = 0 ∨ n = 0 then ⟨0, 0⟩
  else
    let a := x.m.natAbs
    let p := natBits a
    let q := natBits n
    let f : ℤ := if n * 2 ^ p ≤ a * 2 ^ q then (p : ℤ) - q else (p : ℤ) - q - 1
    let s : ℤ := 52 - f
    let sig := if 0 ≤ s then roundNearestEven (a * 2 ^ s.toNat) n
               else roundNearestEven a (n * 2 ^ (-s).toNat)
    normDyadic ⟨if x.m < 0 then -(sig : ℤ) else (sig : ℤ), x.e + f - 52⟩

/-- The double denoted by the decimal literal `num / den`, e.g. the Python
literal `0.1` is `flLit 1 10` (the nearest double to one tenth). -/
def flLit (num den : ℕ) : Dyadic := flDivNat ⟨num, 0⟩ den

/-- Model of Python `sum(vals)` over floats: a left fold of IEEE additions
starting from the integer `0` (exact as a double). -/
def flSum (l : List Dyadic) : Dyadic := l.foldl flAdd ⟨0, 0⟩

/-- The exact rational a dyadic denotes. -/
def Dyadic.toRat (d : Dyadic) : ℚ :=
  if 0 ≤ d.e then (d.m : ℚ) * 2 ^ d.e.toNat else (d.m : ℚ) / 2 ^ (-d.e).toNat

/-- Embedding of rag3.py `average_embeddings` with IEEE double semantics:
`[sum(vals) / len(vals) for vals in zip(*embeddings)]`, each sum a chain of
rounded additions and each division by the length rounded once. -/
def average_embeddings (embeddings : List (List Dyadic)) : List Dyadic :=
  match embeddings with
  | [] => []
  | l0 :: rest => (zipCols l0 rest).map (fun vals => flDivNat (flSum vals) vals.length)

/-- The same comprehension under the spec's idealized exact (infinite
precision) arithmetic, stated over `ℚ`; this clearly named second
definition follows the spec's description of the centroid and is compared
against the float-faithful `average_embeddings` in claim C9. -/
def average_embeddings_ideal (embeddings : List (List ℚ)) : List ℚ :=
  match embeddings with
  | [] => []
  | l0 :: rest => (zipCols l0 rest).map (fun vals => vals.sum / (vals.length : ℚ))

/-! ## Entity extractors (rag3.py `extract_unit_id` and friends) -/

/-- Embedding of `extract_unit_id`: first match of `\bU-\d{3}\b` (ignoring
case), upper-cased. -/
def extract_unit_id (text : String) : Option String :=
  (searchPat (idPatAt 'u') none text.data).map pyUpper

/-- Embedding of `extract_amenity_id`: first match of `\bA-\d{3}\b`,
upper-cased. -/
def extract_amenity_id (text : String) : Option String :=
  (searchPat (idPatAt 'a') none text.data).map pyUpper

/-- Embedding of `extract_tenant_id`: first match of `\bT-\d{3}\b`,
upper-cased. -/
def extract_tenant_id (text : String) : Option String :=
  (searchPat (idPatAt 't') none text.data).map pyUpper

/-- Position matcher for `BILL[-_ ]?\d+\b` (case-insensitive); the matched
text is returned verbatim, as `extract_bill_id` does not upper-case it. -/
def billPatAt (l : List Char) : Option String :=
  match dropCI ['b', 'i', 'l', 'l'] l with
  | none => none
  | some rest =>
    match rest with
    | [] => none
    | c :: rest2 =>
      if c == '-' || c == '_' || c == ' ' then
        let ds := rest2.takeWhile Char.isDigit
        if !ds.isEmpty && !wordOpt ((rest2.drop ds.length).head?) then
          some ⟨l.take 4 ++ c :: ds⟩
        else none
      else
        let ds := rest.takeWhile Char.isDigit
        if !ds.isEmpty && !wordOpt ((rest.drop ds.length).head?) then
          some ⟨l.take 4 ++ ds⟩
        else none

/-- Embedding of `extract_bill_id`. -/
def extract_bill_id (text : String) : Option String :=
  searchPat billPatAt none text.data

/-- Position matcher for `\b(20\d{2}-\d{2})\b`. -/
def monthPatAt : List Char → Option String
  | y1 :: y2 :: y3 :: y4 :: '-' :: m1 :: m2 :: rest =>
      if y1 == '2' && y2 == '0' && y3.isDigit && y4.isDigit && m1.isDigit
          && m2.isDigit && !wordOpt rest.head? then
        some ⟨[y1, y2, y3, y4, '-', m1, m2]⟩
      else none
  | _ => none

/-- Embedding of `extract_month`. The source consults the wall clock
(`datetime.now().strftime("%Y-%m")`) when the query says "this month"; that
clock reading is passed in as `nowMonth`. -/
def extract_month (text : String) (nowMonth : String) : Option String :=
  match searchPat monthPatAt none text.data with
  | some m => some m
  | none =>
      if containsSub "this month".data (pyLower text).data then some nowMonth
      else none

/-- Longest prefix of a greedy `[a-zA-Z0-9_ -]+` run that still ends in a word
character — the backtracking the trailing `\b` of the role pattern forces.
Returns `none` when the run contains no word character at all. -/
def trimToWord (l : List Char) : Option (List Char) :=
  let r := (l.reverse.dropWhile (fun c => !isWordChar c)).reverse
  if r.isEmpty then none else some r

/-- Position matcher for `\brole[: ]+([a-zA-Z0-9_ -]+)\b` (case-insensitive),
returning group 1. Every word character lies in the bracket class, so the
final `\b` holds exactly when the captured run is cut at its last word
character; if the run after the separators holds no word character, no
amount of backtracking can save the match. -/
def rolePatAt (l : List Char) : Option String :=
  match dropCI ['r', 'o', 'l', 'e'] l with
  | none => none
  | some rest =>
    let seps := rest.takeWhile (fun c => c == ':' || c == ' ')
    if seps.isEmpty then none
    else
      let body := (rest.drop seps.length).takeWhile
        (fun c => c.isAlphanum || c == '_' || c == ' ' || c == '-')
      (trimToWord body).map (fun g => (⟨g⟩ : String))

/-- UTF-8 encoding of one scalar value, as a list of byte values. -/
def utf8Bytes (c : Char) : List Nat :=
  let n := c.toNat
  if n < 0x80 then [n]
  else if n < 0x800 then [0xC0 + n / 64, 0x80 + n % 64]
  else if n < 0x10000 then
    [0xE0 + n / 4096, 0x80 + (n / 64) % 64, 0x80 + n % 64]
  else
    [0xF0 + n / 262144, 0x80 + (n / 4096) % 64, 0x80 + (n / 64) % 64,
     0x80 + n % 64]

/-- Upper-case hexadecimal digit. -/
def hexDigit (n : Nat) : Char :=
  if n < 10 then Char.ofNat ('0'.toNat + n) else Char.ofNat ('A'.toNat + n - 10)

/-- Model of `urllib.parse.quote_plus`: keep ASCII alphanumerics and
`_ . - ~`, turn a space into `+`, percent-encode everything else bytewise. -/
def quote_plus (s : String) : String :=
  ⟨s.data.foldr (fun c acc =>
      (if c == ' ' then ['+']
       else if c.isAlphanum || c == '-' || c == '_' || c == '.' || c == '~' then [c]
       else (utf8Bytes c).foldr
         (fun b a => '%' :: hexDigit (b / 16) :: hexDigit (b % 16) :: a) [])
      ++ acc) []⟩

/-! ## Endpoint job builder (rag3.py `build_api_jobs`) -/

/-- Default of the `PROPERTY_API_BASE` environment variable read by rag3.py. -/
def API_BASE : String := "http://localhost:8000"

/-- Parameter dictionaries are tiny here (`{}` or `{"q": query}`), modelled as
association lists. -/
abbrev Params := List (String × String)

/-- One entry of the `jobs` list: `(coll_tag or path, url, params or {})`. -/
abbrev Job := String × String × Params

/-- Model of the local helper `add` of `build_api_jobs`. Every call site
passes a non-empty `coll_tag`, and `coll_tag or path` falls back to the
path only for an empty tag. -/
def addJob (path : String) (params : Params) (collTag : String) : Job :=
  (if collTag = "" then path else collTag, rstripSlash API_BASE ++ path, params)

/-- Embedding of rag3.py `build_api_jobs`. `nowMonth` threads the wall-clock
reading used by `extract_month`; `target_unit0` is the `target_unit`
argument (`none` models Python `None`, and the source also re-extracts on an
empty string since `if not target_unit` is truthiness-based). -/
def build_api_jobs (user_query : String) (target_collections : List String)
    (assigned_units : List String) (target_unit0 : Option String)
    (nowMonth : String) : List Job :=
  let target_unit :=
    match target_unit0 with
    | none => extract_unit_id user_query
    | some u => if u = "" then extract_unit_id user_query else some u
  let collJobs := fun (coll : String) =>
    if coll = "Units" then
      [addJob "/units/summary/" [] "UnitsSummary"] ++
      (match target_unit with
       | some u =>
          [addJob ("/units/" ++ u) [] "Unit",
           addJob ("/units/" ++ u ++ "/tenant") [] "UnitTenant",
           addJob ("/units/" ++ u ++ "/bills") [] "UnitBills",
           addJob ("/units/" ++ u ++ "/maintenance") [] "UnitMaintenance",
           addJob ("/units/" ++ u ++ "/amenities") [] "UnitAmenities"]
       | none => [])
    else if coll = "Tenants" then
      [addJob "/tenants/" [] "Tenants"] ++
      (match extract_tenant_id user_query with
       | some t =>
          [addJob ("/tenants/" ++ t) [] "Tenant",
           addJob ("/tenants/" ++ t ++ "/contract") [] "TenantContract",
           addJob ("/tenants/" ++ t ++ "/bills") [] "TenantBills",
           addJob ("/tenants/" ++ t ++ "/rent") [] "TenantRent",
           addJob ("/tenants/" ++ t ++ "/maintenance") [] "TenantMaintenance"]
       | none =>
          match target_unit with
          | some u => [addJob ("/tenants/unit/" ++ u) [] "TenantByUnit"]
          | none => [addJob "/tenants/search/" [("q", user_query)] "TenantSearch"])
    else if coll = "Amenities" then
      (match extract_amenity_id user_query with
       | some a => [addJob ("/amenities/" ++ a) [] "Amenity"]
       | none =>
          match target_unit with
          | some u => [addJob ("/amenities/units/" ++ u) [] "AmenitiesForUnit"]
          | none =>
             [addJob "/amenities/" [] "Amenities",
              addJob "/amenities/search/" [("q", user_query)] "AmenitySearch"])
    else if coll = "Maintenance" then
      [addJob "/maintenance/summary/" [] "MaintenanceSummary",
       addJob "/maintenance/pending/" [] "MaintPending",
       addJob "/maintenance/resolved/" [] "MaintResolved"] ++
      (match target_unit with
       | some u => [addJob ("/maintenance/unit/" ++ u) [] "MaintenanceForUnit"]
       | none => [])
    else if coll = "Contracts" then
      [addJob "/contracts/" [] "Contracts",
       addJob "/contracts/expiring/" [] "ContractsExpiring"] ++
      (match extract_tenant_id user_query with
       | some t => [addJob ("/contracts/tenant/" ++ t) [] "ContractByTenant"]
       | none => [])
    else if coll = "Rent" then
      [addJob "/rent/summary/monthly" [] "RentMonthly",
       addJob "/rent/unpaid/" [] "RentUnpaid"] ++
      (match target_unit with
       | some u =>
          [addJob ("/rent/unit/" ++ u) [] "RentForUnit"] ++
          (match extract_month user_query nowMonth with
           | some month =>
              [addJob ("/rent/unit/" ++ u ++ "/month/" ++ month) [] "RentUnitMonth"]
           | none => [])
       | none => []) ++
      (match extract_tenant_id user_query with
       | some t => [addJob ("/rent/tenant/" ++ t) [] "RentByTenant"]
       | none => [])
    else if coll = "ElecBill" || coll = "WaterBill" then
      [addJob "/bills/summary/" [] "BillsSummary",
       addJob "/bills/electric/" [] "ElectricBills",
       addJob "/bills/water/" [] "WaterBills"] ++
      (match extract_bill_id user_query with
       | some b =>
          [addJob ("/bills/electric/" ++ b) [] "ElectricBill",
           addJob ("/bills/water/" ++ b) [] "WaterBill"]
       | none => []) ++
      (match target_unit with
       | some u => [addJob ("/bills/unit/" ++ u) [] "BillsForUnit"]
       | none => [])
    else if coll = "Expenses" then
      [addJob "/expenses/summary/by-category" [] "ExpensesByCategory",
       addJob "/expenses/" [] "Expenses",
       addJob "/expenses/categories/" [] "ExpenseCategories"]
    else if coll = "Staff" then
      [addJob "/staff/summary/" [] "StaffSummary",
       addJob "/staff/roles/" [] "StaffRoles"] ++
      (match searchPat rolePatAt none user_query.data with
       | some role => [addJob ("/staff/role/" ++ quote_plus role) [] "StaffByRole"]
       | none => [])
    else
      [addJob "/summary" [] "PropertySummary",
       addJob "/summary/bills" [] "BillsSummaryLegacy"]
  (target_collections.flatMap collJobs) ++
  [addJob "/summary" [] "PropertySummary",
   addJob "/bills/summary/" [] "BillsSummary"] ++
  assigned_units.flatMap (fun u =>
    [addJob ("/units/" ++ u) [] ("Unit_" ++ u),
     addJob ("/units/" ++ u ++ "/bills") [] ("UnitBills_" ++ u)])

/-! ## Dedup and fan-out context (rag3.py `fetch_realtime_context`) -/

/-- Order on parameter pairs matching Python tuple comparison. -/
def pairLe (a b : String × String) : Prop :=
  a.1 < b.1 ∨ (a.1 = b.1 ∧ a.2 ≤ b.2)

instance : DecidableRel pairLe := fun a b =>
  inferInstanceAs (Decidable (a.1 < b.1 ∨ (a.1 = b.1 ∧ a.2 ≤ b.2)))

/-- Model of `tuple(sorted((params or {}).items()))`. -/
def sortedParams (p : Params) : Params := List.insertionSort pairLe p

/-- The dedup key `(url, tuple(sorted(params.items())))`. -/
def jobKey (j : Job) : String × Params := (j.2.1, sortedParams j.2.2)

/-- The dedup loop of `fetch_realtime_context`: keep a job only when its key
has not been seen yet. -/
def dedupJobsAux (seen : List (String × Params)) : List Job → List Job
  | [] => []
  | j :: rest =>
      if jobKey j ∈ seen then dedupJobsAux seen rest
      else j :: dedupJobsAux (jobKey j :: seen) rest

/-- Deduplicated job list (`dedup_jobs` in the source). -/
def dedupJobs (jobs : List Job) : List Job := dedupJobsAux [] jobs

/-- Model of `jobs_to_run = dedup_jobs[:max_items]`. -/
def jobsToRun (jobs : List Job) (maxItems : Nat) : List Job :=
  (dedupJobs jobs).take maxItems

/-- The job list `fetch_realtime_context` actually executes for a query
(`max_items` defaults to 4). -/
def realtimeJobsToRun (user_query : String) (target_collections : List String)
    (assigned_units : List String) (target_unit : Option String)
    (nowMonth : String) : List Job :=
  jobsToRun (build_api_jobs user_query target_collections assigned_units
    target_unit nowMonth) 4

/-- Outcome of `safe_get` as seen by `_worker`: either a payload with its
rendered elapsed time, or an error message with the rendered wall time.
Payloads stay abstract (type `P`); the `%.2f` renderings are carried as
strings. -/
inductive FetchRes (P : Type) where
  | ok (payload : P) (elapsedStr : String)
  | err (msg : String) (wallStr : String)

/-- The tuple `_worker` appends to `results`: `(coll_tag, url, body, elapsed)`
with the body already rendered — `dumps` models `json.dumps(payload, ...)`
and `dumpsErr` models `json.dumps({"error": msg}, ...)`. A failed fetch
appends an entry just like a successful one. -/
def workerEntry {P : Type} (dumps : P → String) (dumpsErr : String → String)
    (fetch : Job → FetchRes P) (j : Job) : String × String × String × String :=
  match fetch j with
  | .ok p el => (j.1, j.2.1, dumps p, el)
  | .err e wall => (j.1, j.2.1, dumpsErr e, wall)

/-- One `--- SOURCE: tag (url) ---` block of the context string. -/
def srcBlock (e : String × String × String × String) : String :=
  "--- SOURCE: " ++ e.1 ++ " (" ++ e.2.1 ++ ") ---\n#elapsed: " ++ e.2.2.2 ++
    "s\n" ++ e.2.2.1

/-- The context string `fetch_realtime_context` builds from its `results`
list. Workers append to `results` as they complete, so the list of executed
jobs is passed here in completion order (`completed`). -/
def fetchContextOf {P : Type} (dumps : P → String) (dumpsErr : String → String)
    (fetch : Job → FetchRes P) (completed : List Job) : String :=
  let parts := completed.map (fun j => srcBlock (workerEntry dumps dumpsErr fetch j))
  if parts.isEmpty then "" else pyJoin "\n\n" parts

/-- The context assembly of `generate_answer`: prefer the realtime context and
attach the chroma snippet as a supplemental section; fall back to the chroma
snippet alone only when the realtime context is empty. -/
def assembleContext (realtime chroma : String) : String :=
  if realtime ≠ "" then
    (if chroma ≠ "" then
      realtime ++ "\n\n--- SEMANTIC MATCHES (short) ---\n" ++ chroma
     else realtime)
  else chroma

/-! ## Single-flight TTL cache (backend/main.py `AsyncTTLCache`), sequential
fragment.

The cache is exercised here by one caller at a time; the per-key lock and the
global lock-registry lock are uncontended and have no observable effect in
that fragment, so they are elided. Stored values have type `Option V`, with
`none` standing for Python `None`; wall-clock readings are passed in as `now`
(one reading per call). -/

/-- The `_data` map of `AsyncTTLCache`: key ↦ (expiry, value). -/
structure AsyncTTLCache (V : Type) where
  data : List (String × ℚ × Option V)

namespace AsyncTTLCache

/-- Model of `self._data.get(key)`. -/
def lookupData {V : Type} : List (String × ℚ × Option V) → String →
    Option (ℚ × Option V)
  | [], _ => none
  | e :: rest, k => if e.1 = k then some e.2 else lookupData rest k

/-- Model of `self._data.pop(key, None)` restricted to the map. -/
def removeData {V : Type} : List (String × ℚ × Option V) → String →
    List (String × ℚ × Option V)
  | [], _ => []
  | e :: rest, k => if e.1 = k then removeData rest k else e :: removeData rest k

/-- Model of `self._data[key] = value`. -/
def setData {V : Type} (d : List (String × ℚ × Option V)) (k : String)
    (v : ℚ × Option V) : List (String × ℚ × Option V) :=
  (k, v) :: removeData d k

/-- Embedding of `AsyncTTLCache.get`: absent, expired (lazily evicted under
the global lock) and stored-`None` entries all read back as `none`. -/
def get {V : Type} (c : AsyncTTLCache V) (now : ℚ) (key : String) :
    Option V × AsyncTTLCache V :=
  match lookupData c.data key with
  | none => (none, c)
  | some (expiry, value) =>
      if now > expiry then (none, ⟨removeData c.data key⟩)
      else (value, c)

/-- Result of one `get_or_compute` call: the value returned (or the exception
propagated), the cache state afterwards, and whether `coro_func` ran. -/
structure GocResult (V E : Type) where
  result : Except E (Option V)
  state : AsyncTTLCache V
  computed : Bool

/-- Embedding of `AsyncTTLCache.get_or_compute` for a single caller. The
compute coroutine is modelled by the value `compute`: `Except.error e`
models `await coro_func()` raising, `Except.ok v` models it returning `v`
(possibly Python `None`). -/
def get_or_compute {V E : Type} (c : AsyncTTLCache V) (now : ℚ) (key : String)
    (compute : Except E (Option V)) (ttl : ℚ) : GocResult V E :=
  match get c now key with
  | (some x, c1) => ⟨.ok (some x), c1, false⟩
  | (none, c1) =>
    match get c1 now key with
    | (some x, c2) => ⟨.ok (some x), c2, false⟩
    | (none, c2) =>
      match compute with
      | .error e => ⟨.error e, c2, true⟩
      | .ok val => ⟨.ok val, ⟨setData c2.data key (now + ttl, val)⟩, true⟩

end AsyncTTLCache

/-! ## Retry with backoff (rag3.py `safe_get`) -/

/-- A response object as `safe_get` consumes it: `jsonResult` is the combined
outcome of `r.raise_for_status(); r.json()` (its `error` case triggers the
fallback payload built from the status code and body text). -/
structure HttpResp (P : Type) where
  status_code : Nat
  jsonResult : Except String P
  text : String

/-- The payload `safe_get` returns on the `ok` path. -/
inductive SafePayload (P : Type) where
  | json (p : P)
  | fallback (status : Nat) (text : String)

/-- The dictionary `safe_get` returns: `ok` with payload and status, or the
final error value. -/
inductive SafeRes (P : Type) where
  | ok (payload : SafePayload P) (status_code : Nat)
  | err (msg : String)

/-- Observable trace of one `safe_get` call: its return value, how many
request attempts ran, and the backoff delays slept between attempts. -/
structure SafeTrace (P : Type) where
  res : SafeRes P
  attempts : Nat
  sleeps : List ℚ

/-- The inner `try` of `safe_get`: parse JSON after `raise_for_status`, or
fall back to `{"error": f"status={...}", "text": r.text[:1000]}`. -/
def mkSafePayload {P : Type} (r : HttpResp P) : SafePayload P :=
  match r.jsonResult with
  | .ok p => .json p
  | .error _ => .fallback r.status_code (pyTake 1000 r.text)

/-- The attempt loop of `safe_get` over the remaining indices of
`range(retries + 1)`. `net a` models `session.get` on attempt `a`
(`Except.error` is a raised request exception). -/
def safeGetGo {P : Type} (net : Nat → Except String (HttpResp P))
    (backoff_base : ℚ) (retries : Nat) (last_exc : Option String) :
    List Nat → SafeTrace P
  | [] =>
      ⟨.err (match last_exc with | some e => e | none => "None"), 0, []⟩
  | attempt :: rest =>
    match net attempt with
    | .ok r => ⟨.ok (mkSafePayload r) r.status_code, 1, []⟩
    | .error e =>
      if attempt == retries then ⟨.err e, 1, []⟩
      else
        let t := safeGetGo net backoff_base retries (some e) rest
        ⟨t.res, t.attempts + 1, backoff_base * 2 ^ attempt :: t.sleeps⟩

/-- Embedding of rag3.py `safe_get` (retries and backoff base as in the
source's signature; callers use `retries=2, backoff_base=1.0`). -/
def safe_get {P : Type} (net : Nat → Except String (HttpResp P))
    (retries : Nat) (backoff_base : ℚ) : SafeTrace P :=
  safeGetGo net backoff_base retries none (List.range (retries + 1))

/-! ## Concrete fixtures used by counterexamples and witnesses -/

/-- The job list executed for the query "electricity" (routed through the
Collection Router; no assigned units, no pre-extracted unit id). -/
def exJobs : List Job :=
  realtimeJobsToRun "electricity" (detect_collections "electricity") [] none
    "2025-01"

/-- A fetcher for which every endpoint read fails. -/
def exFetch : Job → FetchRes String := fun _ => FetchRes.err "timeout" "0.00"

/-- A non-empty similarity (chroma) snippet. -/
def exChroma : String := "--- Chunk 1 ---\nUnit U-101 is on floor 3"

/-! # Theorems -/

/-! ## Helper lemmas -/

theorem pySortedSet_sorted (xs : List String) :
    (pySortedSet xs).Sorted (· ≤ ·) :=
  List.sorted_insertionSort _ _

theorem pySortedSet_nodup (xs : List String) : (pySortedSet xs).Nodup :=
  ((List.perm_insertionSort _ _).nodup_iff).2 (List.nodup_dedup xs)

theorem mem_pySortedSet {x : String} {xs : List String} :
    x ∈ pySortedSet xs ↔ x ∈ xs := by
  unfold pySortedSet
  rw [(List.perm_insertionSort _ _).mem_iff, List.mem_dedup]

/-! ## C7: the Collection Router never returns an empty partition set -/

/-- Claim C7: for every query string, `detect_collections` returns a
non-empty partition list, and when no partition keyword matches as a whole
word it returns exactly the default `["Units"]`. -/
theorem detect_collections_nonempty_default (q : String) :
    detect_collections q ≠ [] ∧
    ((∀ p ∈ COLLECTION_KEYWORDS, ∀ k ∈ p.2,
        wordSearch (pyLower k).data none (pyLower q).data = false) →
      detect_collections q = ["Units"]) := by
  constructor
  · simp only [detect_collections]
    split
    · simp
    · next h =>
      intro hc
      rw [hc] at h
      simp at h
  · intro h
    have hfil : COLLECTION_KEYWORDS.filter
        (fun p => keywordHit (pyLower q) p.2) = [] := by
      rw [List.filter_eq_nil_iff]
      intro p hp
      have hk : keywordHit (pyLower q) p.2 = false := by
        unfold keywordHit
        rw [List.any_eq_false]
        intro k hk
        simp [h p hp k hk]
      simp [hk]
    simp [detect_collections, hfil]

/-- Witness for C7 at the keyword-free query "zzzz". -/
theorem detect_collections_nonempty_default_witness :
    detect_collections "zzzz" = ["Units"] :=
  (detect_collections_nonempty_default "zzzz").2 (by decide)

/-! ## C8: the Query Expander output is sorted, deduplicated, contains the
original query — but is not case-normalized -/

/-- Counterexample to the case-normalization part of claim C8: the expansion
of the query "RENT" contains the original text in its original case. -/
theorem expand_query_not_case_normalized :
    ¬ (∀ s ∈ expand_query "RENT", pyLower s = s) := by
  intro h
  have hm : "RENT" ∈ expand_query "RENT" := by
    simp only [expand_query]
    rw [mem_pySortedSet]
    simp
  exact absurd (h "RENT" hm) (by decide)

/-- Amended claim C8: `expand_query` is a pure function (hence deterministic),
its output is sorted and deduplicated, and it always contains the original
query text verbatim. -/
theorem expand_query_sorted_nodup_mem (q : String) :
    (expand_query q).Sorted (· ≤ ·) ∧ (expand_query q).Nodup ∧
    q ∈ expand_query q := by
  refine ⟨?_, ?_, ?_⟩
  · simp only [expand_query]
    exact pySortedSet_sorted _
  · simp only [expand_query]
    exact pySortedSet_nodup _
  · simp only [expand_query]
    rw [mem_pySortedSet]
    simp

/-! ## C9: centroid of identical vectors, and centroid dimensionality -/

theorem zipCols_replicate {α : Type} (m : Nat) (v : List α) :
    zipCols v (List.replicate m v) = v.map (fun x => List.replicate (m + 1) x) := by
  induction v with
  | nil => rfl
  | cons x xs ih =>
    have hany : (List.replicate m (x :: xs)).any List.isEmpty = false := by
      rw [List.any_eq_false]
      intro l hl
      rw [List.eq_of_mem_replicate hl]
      simp
    calc zipCols (x :: xs) (List.replicate m (x :: xs))
        = (x :: (List.replicate m (x :: xs)).map (fun l => l.headD x)) ::
            zipCols xs ((List.replicate m (x :: xs)).map List.tail) := by
          simp only [zipCols, hany, Bool.false_eq_true, if_false]
      _ = List.replicate (m + 1) x ::
            zipCols xs (List.replicate m xs) := by
          simp [List.map_replicate, List.replicate_succ]
      _ = (x :: xs).map (fun y => List.replicate (m + 1) y) := by
          rw [ih]; rfl

theorem zipCols_length {α : Type} (v : List α) :
    ∀ rest : List (List α), (∀ l ∈ rest, l.length = v.length) →
      (zipCols v rest).length = v.length := by
  induction v with
  | nil => intro rest _; rfl
  | cons x xs ih =>
    intro rest h
    have hany : rest.any List.isEmpty = false := by
      rw [List.any_eq_false]
      intro l hl
      have : l ≠ [] := by
        intro hnil
        have := h l hl
        rw [hnil] at this
        simp at this
      simp [List.isEmpty_iff, this]
    have htail : ∀ l ∈ rest.map List.tail, l.length = xs.length := by
      intro l hl
      obtain ⟨l0, hl0, rfl⟩ := List.mem_map.1 hl
      have := h l0 hl0
      simp only [List.length_cons] at this
      simp [List.length_tail, this]
    simp only [zipCols, hany, Bool.false_eq_true, if_false, List.length_cons]
    rw [ih (rest.map List.tail) htail]

/-- Counterexample to claim C9 as stated: under the program's IEEE double
arithmetic, averaging three copies of the double `0.1` does not return
`0.1` — `sum((0.1, 0.1, 0.1)) / 3` computes to `7205759403792795 * 2 ^ -56`
(`0.10000000000000002`), one unit in the last place above `0.1`, and the two
canonical dyadics denote different rational values. -/
theorem average_embeddings_float_counterexample :
    average_embeddings (List.replicate 3 [flLit 1 10]) ≠ [flLit 1 10] ∧
    average_embeddings (List.replicate 3 [flLit 1 10]) =
      [⟨7205759403792795, -56⟩] ∧
    Dyadic.toRat ⟨7205759403792795, -56⟩ ≠ Dyadic.toRat (flLit 1 10) := by
  refine ⟨by decide, by decide, ?_⟩
  have hl : flLit 1 10 = (⟨3602879701896397, -55⟩ : Dyadic) := by decide
  rw [hl]
  simp only [Dyadic.toRat]
  have h1 : Int.toNat 56 = 56 := rfl
  have h2 : Int.toNat 55 = 55 := rfl
  norm_num [h1, h2]

/-- Amended claim C9: under the program's IEEE double arithmetic the centroid
of `n` identical vectors need not equal that vector (rounding intervenes,
see the counterexample), but the centroid always has the dimensionality of
the input vectors, and under the spec's idealized exact arithmetic
(`average_embeddings_ideal`) the centroid of `n ≥ 1` copies of a vector is
exactly that vector. -/
theorem average_embeddings_amended (n : Nat) (v : List ℚ)
    (e : List (List Dyadic)) (d : Nat)
    (hn : 1 ≤ n) (he : e ≠ []) (hd : ∀ l ∈ e, l.length = d) :
    average_embeddings_ideal (List.replicate n v) = v ∧
    (average_embeddings e).length = d := by
  constructor
  · obtain ⟨m, rfl⟩ : ∃ m, n = m + 1 := ⟨n - 1, by omega⟩
    rw [List.replicate_succ]
    show (zipCols v (List.replicate m v)).map _ = v
    rw [zipCols_replicate, List.map_map]
    have hpt : ∀ x : ℚ,
        (List.replicate (m + 1) x).sum / (((List.replicate (m + 1) x).length : Nat) : ℚ) = x := by
      intro x
      rw [List.sum_replicate, List.length_replicate, nsmul_eq_mul]
      exact mul_div_cancel_left₀ x (Nat.cast_ne_zero.mpr (Nat.succ_ne_zero m))
    calc v.map ((fun vals : List ℚ => vals.sum / (vals.length : ℚ)) ∘
            fun x => List.replicate (m + 1) x)
        = v.map id := List.map_congr_left (fun x _ => hpt x)
      _ = v := List.map_id v
  · cases e with
    | nil => exact absurd rfl he
    | cons l0 rest =>
      show ((zipCols l0 rest).map _).length = d
      rw [List.length_map]
      have h0 : l0.length = d := hd l0 (by simp)
      rw [zipCols_length l0 rest (fun l hl => by
        rw [hd l (List.mem_cons_of_mem _ hl), h0])]
      exact h0

/-- Witness for the amended C9 at `n = 2`, `v = [1/2]`, and a family of two
one-dimensional double vectors. -/
theorem average_embeddings_amended_witness :
    average_embeddings_ideal (List.replicate 2 [(1 : ℚ)/2]) = [(1 : ℚ)/2] ∧
    (average_embeddings [[⟨1, 0⟩], [⟨3, -1⟩]]).length = 1 :=
  average_embeddings_amended 2 [(1 : ℚ)/2] [[⟨1, 0⟩], [⟨3, -1⟩]] 1
    (by decide) (List.cons_ne_nil _ _) (by decide)

/-! ## C3: safe_get performs retries+1 attempts with monotone backoff -/

theorem safeGetGo_all_fail {P : Type} (net : Nat → Except String (HttpResp P))
    (b : ℚ) (retries : Nat) (hfail : ∀ a, ∃ e, net a = Except.error e) :
    ∀ (n s : Nat) (last : Option String), s + n = retries + 1 →
      (safeGetGo net b retries last (List.range' s n)).attempts = n ∧
      (∃ msg, (safeGetGo net b retries last (List.range' s n)).res = SafeRes.err msg) ∧
      (safeGetGo net b retries last (List.range' s n)).sleeps =
        (List.range' s (n - 1)).map (fun a => b * 2 ^ a) := by
  intro n
  induction n with
  | zero =>
      intro s last _
      exact ⟨rfl, ⟨_, rfl⟩, rfl⟩
  | succ m ih =>
      intro s last h
      obtain ⟨e, he⟩ := hfail s
      rw [List.range'_succ]
      by_cases hs : s = retries
      · have hm : m = 0 := by omega
        subst hm
        subst hs
        simp only [safeGetGo, he]
        rw [if_pos (by simp)]
        exact ⟨rfl, ⟨e, rfl⟩, rfl⟩
      · have hbeq : (s == retries) = false := by simp [hs]
        obtain ⟨ih1, ⟨msg, ih2⟩, ih3⟩ := ih (s + 1) (some e) (by omega)
        simp only [safeGetGo, he, hbeq, Bool.false_eq_true, if_false]
        refine ⟨by simp [ih1], ⟨msg, by simp [ih2]⟩, ?_⟩
        show b * 2 ^ s :: (safeGetGo net b retries (some e) (List.range' (s + 1) m)).sleeps = _
        rw [ih3]
        obtain ⟨m', rfl⟩ : ∃ m', m = m' + 1 := ⟨m - 1, by omega⟩
        rw [Nat.add_sub_cancel, Nat.add_sub_cancel, List.range'_succ, List.map_cons]

theorem chain_backoff (b : ℚ) (hb : 0 ≤ b) :
    ∀ (k s : Nat), List.Chain' (· ≤ ·) ((List.range' s k).map (fun a => b * 2 ^ a)) := by
  intro k
  induction k with
  | zero => intro s; simp
  | succ m ih =>
      intro s
      cases m with
      | zero => simp
      | succ m' =>
          rw [List.range'_succ, List.map_cons, List.range'_succ, List.map_cons,
            List.chain'_cons]
          constructor
          · have hpow : (2 : ℚ) ^ s ≤ 2 ^ (s + 1) := by
              apply pow_le_pow_right₀ (by norm_num) (Nat.le_succ s)
            exact mul_le_mul_of_nonneg_left hpow hb
          · have h2 := ih (s + 1)
            rwa [List.range'_succ, List.map_cons] at h2

/-- Claim C3: when every request attempt raises, `safe_get` performs exactly
`retries + 1` attempts, returns an error value instead of raising, and the
backoff delays slept between attempts are `backoff_base * 2 ^ attempt`,
each one at least the previous one. -/
theorem safe_get_always_fail {P : Type} (net : Nat → Except String (HttpResp P))
    (retries : Nat) (b : ℚ)
    (hfail : ∀ a, ∃ e, net a = Except.error e) (hb : 0 ≤ b) :
    (safe_get net retries b).attempts = retries + 1 ∧
    (∃ msg, (safe_get net retries b).res = SafeRes.err msg) ∧
    (safe_get net retries b).sleeps =
      (List.range retries).map (fun a => b * 2 ^ a) ∧
    List.Chain' (· ≤ ·) (safe_get net retries b).sleeps := by
  obtain ⟨h1, h2, h3⟩ :=
    safeGetGo_all_fail net b retries hfail (retries + 1) 0 none (by omega)
  rw [Nat.add_sub_cancel] at h3
  simp only [safe_get, List.range_eq_range']
  exact ⟨h1, h2, h3, by rw [h3]; exact chain_backoff b hb retries 0⟩

/-- Witness for C3 with a request that always raises, `retries = 2`,
`backoff_base = 1`. -/
theorem safe_get_always_fail_witness :
    (safe_get (P := Unit) (fun _ => Except.error "boom") 2 1).attempts = 2 + 1 ∧
    (∃ msg, (safe_get (P := Unit) (fun _ => Except.error "boom") 2 1).res =
      SafeRes.err msg) ∧
    (safe_get (P := Unit) (fun _ => Except.error "boom") 2 1).sleeps =
      (List.range 2).map (fun a => (1 : ℚ) * 2 ^ a) ∧
    List.Chain' (· ≤ ·)
      (safe_get (P := Unit) (fun _ => Except.error "boom") 2 1).sleeps :=
  safe_get_always_fail (fun _ => Except.error "boom") 2 1
    (fun _ => ⟨"boom", rfl⟩) (by norm_num)

/-! ## Cache helper lemmas -/

theorem cache_lookup_remove {V : Type} (d : List (String × ℚ × Option V))
    (k : String) :
    AsyncTTLCache.lookupData (AsyncTTLCache.removeData d k) k = none := by
  induction d with
  | nil => rfl
  | cons e rest ih =>
      by_cases he : e.1 = k
      · simp [AsyncTTLCache.removeData, he, ih]
      · simp [AsyncTTLCache.removeData, AsyncTTLCache.lookupData, he, ih]

theorem cache_lookup_set {V : Type} (d : List (String × ℚ × Option V))
    (k : String) (p : ℚ × Option V) :
    AsyncTTLCache.lookupData (AsyncTTLCache.setData d k p) k = some p := by
  simp [AsyncTTLCache.setData, AsyncTTLCache.lookupData]

theorem get_none_stable {V : Type} (c : AsyncTTLCache V) (now : ℚ) (key : String)
    (h : (AsyncTTLCache.get c now key).1 = none) :
    AsyncTTLCache.get (AsyncTTLCache.get c now key).2 now key =
      ((none : Option V), (AsyncTTLCache.get c now key).2) := by
  rcases hlk : AsyncTTLCache.lookupData c.data key with _ | ⟨exp, val⟩
  · simp [AsyncTTLCache.get, hlk]
  · by_cases hexp : now > exp
    · simp [AsyncTTLCache.get, hlk, hexp, cache_lookup_remove]
    · have hval : val = none := by
        simp [AsyncTTLCache.get, hlk, hexp] at h
        exact h
      subst hval
      simp [AsyncTTLCache.get, hlk, hexp]

theorem goc_eq_of_get_none {V E : Type} (c : AsyncTTLCache V) (now : ℚ)
    (key : String) (compute : Except E (Option V)) (ttl : ℚ)
    (h : (AsyncTTLCache.get c now key).1 = none) :
    AsyncTTLCache.get_or_compute c now key compute ttl =
      (match compute with
       | .error e =>
          ⟨Except.error e, (AsyncTTLCache.get c now key).2, true⟩
       | .ok val =>
          ⟨Except.ok val,
           ⟨AsyncTTLCache.setData (AsyncTTLCache.get c now key).2.data key
             (now + ttl, val)⟩, true⟩) := by
  have h2 := get_none_stable c now key h
  have hpair : AsyncTTLCache.get c now key =
      ((none : Option V), (AsyncTTLCache.get c now key).2) := by
    rw [← h]
  simp only [AsyncTTLCache.get_or_compute]
  rw [hpair] at h2 ⊢
  simp only [h2]

theorem get_fst_none_of_lookup_none {V : Type} (c : AsyncTTLCache V) (now : ℚ)
    (key : String) (h : AsyncTTLCache.lookupData c.data key = none) :
    AsyncTTLCache.get c now key = ((none : Option V), c) := by
  simp [AsyncTTLCache.get, h]

theorem get_fst_of_lookup_value_none {V : Type} (c : AsyncTTLCache V)
    (now : ℚ) (key : String) (exp : ℚ)
    (h : AsyncTTLCache.lookupData c.data key = some (exp, none)) :
    (AsyncTTLCache.get c now key).1 = none := by
  simp only [AsyncTTLCache.get, h]
  split <;> rfl

theorem get_of_lookup_some_valid {V : Type} (c : AsyncTTLCache V)
    (now : ℚ) (key : String) (exp : ℚ) (v : Option V)
    (h : AsyncTTLCache.lookupData c.data key = some (exp, v)) (hle : now ≤ exp) :
    AsyncTTLCache.get c now key = (v, c) := by
  simp only [AsyncTTLCache.get, h]
  rw [if_neg (not_lt.mpr hle)]

theorem goc_computed_of_get_none {V E : Type} (c : AsyncTTLCache V) (now : ℚ)
    (key : String) (compute : Except E (Option V)) (ttl : ℚ)
    (h : (AsyncTTLCache.get c now key).1 = none) :
    (AsyncTTLCache.get_or_compute c now key compute ttl).computed = true := by
  rw [goc_eq_of_get_none c now key compute ttl h]
  cases compute <;> rfl

/-! ## C2: a failing compute propagates and is never poison-cached -/

/-- Claim C2: when no valid entry exists for `key` (absent or expired) and the
compute coroutine raises, `get_or_compute` propagates the exception, stores
no entry for `key`, and a subsequent `get_or_compute` for the same key runs
the compute function again. -/
theorem get_or_compute_error_not_cached {V E : Type} (c : AsyncTTLCache V)
    (now : ℚ) (key : String) (e : E) (ttl : ℚ)
    (h : ∀ p, AsyncTTLCache.lookupData c.data key = some p → now > p.1) :
    (AsyncTTLCache.get_or_compute c now key (Except.error e) ttl).result =
      Except.error e ∧
    (AsyncTTLCache.get_or_compute c now key (Except.error e) ttl).computed = true ∧
    AsyncTTLCache.lookupData
      (AsyncTTLCache.get_or_compute c now key (Except.error e) ttl).state.data
      key = none ∧
    ∀ (now2 : ℚ) (f : Except E (Option V)) (ttl2 : ℚ),
      (AsyncTTLCache.get_or_compute
        (AsyncTTLCache.get_or_compute c now key (Except.error e) ttl).state
        now2 key f ttl2).computed = true := by
  have hfst : (AsyncTTLCache.get c now key).1 = (none : Option V) := by
    rcases hlk : AsyncTTLCache.lookupData c.data key with _ | ⟨exp, val⟩
    · simp [AsyncTTLCache.get, hlk]
    · simp [AsyncTTLCache.get, hlk, h (exp, val) hlk]
  have hstate : AsyncTTLCache.lookupData (AsyncTTLCache.get c now key).2.data
      key = none := by
    rcases hlk : AsyncTTLCache.lookupData c.data key with _ | ⟨exp, val⟩
    · simp [AsyncTTLCache.get, hlk]
    · simp [AsyncTTLCache.get, hlk, h (exp, val) hlk, cache_lookup_remove]
  rw [goc_eq_of_get_none c now key (Except.error e) ttl hfst]
  refine ⟨rfl, rfl, hstate, ?_⟩
  intro now2 f ttl2
  apply goc_computed_of_get_none
  show (AsyncTTLCache.get (AsyncTTLCache.get c now key).2 now2 key).1 = none
  rw [get_fst_none_of_lookup_none _ now2 key hstate]

/-- Witness for C2: empty cache, key "k", a compute raising the error `7`. -/
theorem get_or_compute_error_not_cached_witness :
    (AsyncTTLCache.get_or_compute (V := Nat) (E := Nat) ⟨[]⟩ 0 "k"
      (Except.error 7) 10).result = Except.error 7 ∧
    (AsyncTTLCache.get_or_compute (V := Nat) (E := Nat) ⟨[]⟩ 0 "k"
      (Except.error 7) 10).computed = true ∧
    AsyncTTLCache.lookupData
      (AsyncTTLCache.get_or_compute (V := Nat) (E := Nat) ⟨[]⟩ 0 "k"
        (Except.error 7) 10).state.data "k" = none ∧
    ∀ (now2 : ℚ) (f : Except Nat (Option Nat)) (ttl2 : ℚ),
      (AsyncTTLCache.get_or_compute
        (AsyncTTLCache.get_or_compute (V := Nat) (E := Nat) ⟨[]⟩ 0 "k"
          (Except.error 7) 10).state now2 "k" f ttl2).computed = true :=
  get_or_compute_error_not_cached ⟨[]⟩ 0 "k" 7 10
    (by intro p hp; simp [AsyncTTLCache.lookupData] at hp)

/-! ## C10: a computed `None` is stored but reads back as absent -/

/-- Claim C10: when the usual fast-path checks fail and the compute returns
Python `None`, `get_or_compute` stores the pair `(now + ttl, None)`, yet
every later `get` for that key reports it absent and every later
`get_or_compute` runs the compute function again, even before the TTL has
elapsed. By contrast, a non-`None` computed value is served from cache
without recomputation while the TTL lasts. -/
theorem get_or_compute_none_value {V E : Type} (c : AsyncTTLCache V)
    (now : ℚ) (key : String) (ttl : ℚ)
    (h : (AsyncTTLCache.get c now key).1 = none) :
    (AsyncTTLCache.get_or_compute (E := E) c now key (Except.ok none) ttl).computed
      = true ∧
    (AsyncTTLCache.get_or_compute (E := E) c now key (Except.ok none) ttl).result
      = Except.ok none ∧
    AsyncTTLCache.lookupData
      (AsyncTTLCache.get_or_compute (E := E) c now key
        (Except.ok none) ttl).state.data key = some (now + ttl, none) ∧
    (∀ now2 : ℚ,
      (AsyncTTLCache.get
        (AsyncTTLCache.get_or_compute (E := E) c now key
          (Except.ok none) ttl).state now2 key).1 = none) ∧
    (∀ (now2 : ℚ) (f : Except E (Option V)) (ttl2 : ℚ),
      (AsyncTTLCache.get_or_compute
        (AsyncTTLCache.get_or_compute (E := E) c now key
          (Except.ok none) ttl).state now2 key f ttl2).computed = true) ∧
    (∀ (v : V) (now3 : ℚ) (f : Except E (Option V)) (ttl3 : ℚ),
      now3 ≤ now + ttl →
      (AsyncTTLCache.get_or_compute
        (AsyncTTLCache.get_or_compute (E := E) c now key
          (Except.ok (some v)) ttl).state now3 key f ttl3).computed = false ∧
      (AsyncTTLCache.get_or_compute
        (AsyncTTLCache.get_or_compute (E := E) c now key
          (Except.ok (some v)) ttl).state now3 key f ttl3).result =
        Except.ok (some v)) := by
  rw [goc_eq_of_get_none c now key (Except.ok none) ttl h]
  have hlk : AsyncTTLCache.lookupData
      (AsyncTTLCache.setData (AsyncTTLCache.get c now key).2.data key
        (now + ttl, (none : Option V))) key = some (now + ttl, none) :=
    cache_lookup_set _ _ _
  have hget : ∀ now2 : ℚ,
      (AsyncTTLCache.get
        (⟨AsyncTTLCache.setData (AsyncTTLCache.get c now key).2.data key
          (now + ttl, none)⟩ : AsyncTTLCache V) now2 key).1 = none := by
    intro now2
    exact get_fst_of_lookup_value_none _ now2 key (now + ttl) hlk
  refine ⟨rfl, rfl, hlk, hget, ?_, ?_⟩
  · intro now2 f ttl2
    exact goc_computed_of_get_none _ now2 key f ttl2 (hget now2)
  · intro v now3 f ttl3 hle
    rw [goc_eq_of_get_none c now key (Except.ok (some v)) ttl h]
    have hlk2 : AsyncTTLCache.lookupData
        (AsyncTTLCache.setData (AsyncTTLCache.get c now key).2.data key
          (now + ttl, some v)) key = some (now + ttl, some v) :=
      cache_lookup_set _ _ _
    have hget3 : AsyncTTLCache.get
        (⟨AsyncTTLCache.setData (AsyncTTLCache.get c now key).2.data key
          (now + ttl, some v)⟩ : AsyncTTLCache V) now3 key =
        (some v,
         ⟨AsyncTTLCache.setData (AsyncTTLCache.get c now key).2.data key
           (now + ttl, some v)⟩) :=
      get_of_lookup_some_valid _ now3 key (now + ttl) (some v) hlk2 hle
    constructor
    · show (AsyncTTLCache.get_or_compute _ now3 key f ttl3).computed = false
      simp only [AsyncTTLCache.get_or_compute, hget3]
    · show (AsyncTTLCache.get_or_compute _ now3 key f ttl3).result =
        Except.ok (some v)
      simp only [AsyncTTLCache.get_or_compute, hget3]

/-- Witness for C10: empty cache, key "k", TTL 10, read back at time 3 < 10. -/
theorem get_or_compute_none_value_witness :
    (AsyncTTLCache.get_or_compute (V := Nat) (E := Nat) ⟨[]⟩ 0 "k"
      (Except.ok none) 10).computed = true ∧
    (AsyncTTLCache.get_or_compute (V := Nat) (E := Nat) ⟨[]⟩ 0 "k"
      (Except.ok none) 10).result = Except.ok none ∧
    AsyncTTLCache.lookupData
      (AsyncTTLCache.get_or_compute (V := Nat) (E := Nat) ⟨[]⟩ 0 "k"
        (Except.ok none) 10).state.data "k" = some (0 + 10, none) ∧
    (∀ now2 : ℚ,
      (AsyncTTLCache.get
        (AsyncTTLCache.get_or_compute (V := Nat) (E := Nat) ⟨[]⟩ 0 "k"
          (Except.ok none) 10).state now2 "k").1 = none) ∧
    (∀ (now2 : ℚ) (f : Except Nat (Option Nat)) (ttl2 : ℚ),
      (AsyncTTLCache.get_or_compute
        (AsyncTTLCache.get_or_compute (V := Nat) (E := Nat) ⟨[]⟩ 0 "k"
          (Except.ok none) 10).state now2 "k" f ttl2).computed = true) ∧
    (∀ (v : Nat) (now3 : ℚ) (f : Except Nat (Option Nat)) (ttl3 : ℚ),
      now3 ≤ 0 + 10 →
      (AsyncTTLCache.get_or_compute
        (AsyncTTLCache.get_or_compute (V := Nat) (E := Nat) ⟨[]⟩ 0 "k"
          (Except.ok (some v)) 10).state now3 "k" f ttl3).computed = false ∧
      (AsyncTTLCache.get_or_compute
        (AsyncTTLCache.get_or_compute (V := Nat) (E := Nat) ⟨[]⟩ 0 "k"
          (Except.ok (some v)) 10).state now3 "k" f ttl3).result =
        Except.ok (some v)) :=
  get_or_compute_none_value ⟨[]⟩ 0 "k" 10 rfl

/-! ## C6: job deduplication -/

theorem dedupJobsAux_sublist (seen : List (String × Params)) (l : List Job) :
    (dedupJobsAux seen l).Sublist l := by
  induction l generalizing seen with
  | nil => simp [dedupJobsAux]
  | cons j rest ih =>
      by_cases hm : jobKey j ∈ seen
      · simp only [dedupJobsAux, if_pos hm]
        exact (ih seen).trans (List.sublist_cons_self j rest)
      · simp only [dedupJobsAux, if_neg hm]
        exact (ih (jobKey j :: seen)).cons₂ j

theorem dedupJobsAux_nodup (seen : List (String × Params)) (l : List Job) :
    ((dedupJobsAux seen l).map jobKey).Nodup ∧
    ∀ k ∈ (dedupJobsAux seen l).map jobKey, k ∉ seen := by
  induction l generalizing seen with
  | nil => simp [dedupJobsAux]
  | cons j rest ih =>
      by_cases hm : jobKey j ∈ seen
      · simpa only [dedupJobsAux, if_pos hm] using ih seen
      · obtain ⟨ihn, ihs⟩ := ih (jobKey j :: seen)
        simp only [dedupJobsAux, if_neg hm, List.map_cons]
        constructor
        · refine List.Nodup.cons ?_ ihn
          intro hmem
          exact ihs _ hmem (List.mem_cons_self _ _)
        · intro k hk
          rcases List.mem_cons.1 hk with rfl | hk2
          · exact hm
          · intro hks
            exact ihs k hk2 (List.mem_cons_of_mem _ hks)

theorem dedupJobsAux_covers (seen : List (String × Params)) (l : List Job) :
    ∀ j ∈ l, jobKey j ∈ seen ∨ jobKey j ∈ (dedupJobsAux seen l).map jobKey := by
  induction l generalizing seen with
  | nil => simp
  | cons j rest ih =>
      intro j0 hj0
      by_cases hm : jobKey j ∈ seen
      · rcases List.mem_cons.1 hj0 with rfl | hj1
        · exact Or.inl hm
        · simpa only [dedupJobsAux, if_pos hm] using ih seen j0 hj1
      · simp only [dedupJobsAux, if_neg hm, List.map_cons]
        rcases List.mem_cons.1 hj0 with rfl | hj1
        · exact Or.inr (List.mem_cons_self _ _)
        · rcases ih (jobKey j :: seen) j0 hj1 with hs | hd
          · rcases List.mem_cons.1 hs with heq | hs2
            · exact Or.inr (by rw [heq]; exact List.mem_cons_self _ _)
            · exact Or.inl hs2
          · exact Or.inr (List.mem_cons_of_mem _ hd)

/-- Counterexample to claim C6 as stated: for the query "electricity"
(routed to the ElecBill partition) the raw output of `build_api_jobs`
contains two jobs with the same `(url, parameters)` key — the partition
branch and the always-appended global fallback both emit the billing
summary endpoint. -/
theorem build_api_jobs_duplicate_key :
    ¬ ((build_api_jobs "electricity" (detect_collections "electricity") []
        none "2025-01").map jobKey).Nodup := by
  decide

/-- Amended claim C6: `build_api_jobs` itself can emit duplicate
`(url, parameters)` pairs; it is the dedup pass of `fetch_realtime_context`
that yields an executed job list in which no two jobs share a key, as a
first-seen-order sublist of the builder output that still covers every
emitted key. -/
theorem dedup_jobs_unique_first_seen (q : String) (tc au : List String)
    (tu : Option String) (nm : String) :
    ((dedupJobs (build_api_jobs q tc au tu nm)).map jobKey).Nodup ∧
    (dedupJobs (build_api_jobs q tc au tu nm)).Sublist
      (build_api_jobs q tc au tu nm) ∧
    ∀ j ∈ build_api_jobs q tc au tu nm,
      jobKey j ∈ (dedupJobs (build_api_jobs q tc au tu nm)).map jobKey := by
  refine ⟨(dedupJobsAux_nodup [] _).1, dedupJobsAux_sublist [] _, ?_⟩
  intro j hj
  rcases dedupJobsAux_covers [] _ j hj with hs | hd
  · cases hs
  · exact hd

/-! ## C4: evidence ordering is completion order, not job-list order -/

/-- Counterexample to claim C4 as stated: the same executed job list (for the
query "electricity"), fetched with the same per-job outcomes, produces two
different context strings under two different worker completion orders. -/
theorem fetch_context_order_counterexample :
    exJobs.reverse.Perm exJobs ∧
    fetchContextOf id id exFetch exJobs.reverse ≠
      fetchContextOf id id exFetch exJobs := by
  exact ⟨List.reverse_perm exJobs, by decide⟩

/-- Amended claim C4: the context string lists the per-endpoint source blocks
in worker completion order. Two runs on the same job list that differ only
in completion order produce the same collection of source blocks (a
permutation, one block per executed job), but not necessarily in the same
order. -/
theorem fetch_context_completion_order {P : Type} (dumps : P → String)
    (dumpsErr : String → String) (fetch : Job → FetchRes P)
    (q : String) (tc au : List String) (tu : Option String) (nm : String)
    (completed : List Job)
    (h : completed.Perm (realtimeJobsToRun q tc au tu nm)) :
    (completed.map (fun j => srcBlock (workerEntry dumps dumpsErr fetch j))).Perm
      ((realtimeJobsToRun q tc au tu nm).map
        (fun j => srcBlock (workerEntry dumps dumpsErr fetch j))) ∧
    fetchContextOf dumps dumpsErr fetch completed =
      pyJoin "\n\n"
        (completed.map (fun j => srcBlock (workerEntry dumps dumpsErr fetch j))) := by
  constructor
  · exact h.map _
  · simp only [fetchContextOf]
    split
    · next hemp =>
        rw [List.isEmpty_iff.1 hemp]
        rfl
    · rfl

/-- Witness for C4 with the "electricity" job list completing in submission
order. -/
theorem fetch_context_completion_order_witness :
    (exJobs.map (fun j => srcBlock (workerEntry id id exFetch j))).Perm
      ((realtimeJobsToRun "electricity" (detect_collections "electricity") []
        none "2025-01").map (fun j => srcBlock (workerEntry id id exFetch j))) ∧
    fetchContextOf id id exFetch exJobs =
      pyJoin "\n\n" (exJobs.map (fun j => srcBlock (workerEntry id id exFetch j))) :=
  fetch_context_completion_order id id exFetch "electricity"
    (detect_collections "electricity") [] none "2025-01" exJobs
    (List.Perm.refl exJobs)

/-! ## C5: failed fetches still contribute error blocks to the context -/

theorem pyJoin_cons (sep x : String) (xs : List String) :
    ∃ t, pyJoin sep (x :: xs) = x ++ t := by
  cases xs with
  | nil => exact ⟨"", by simp [pyJoin]⟩
  | cons y ys => exact ⟨sep ++ pyJoin sep (y :: ys), by simp [pyJoin, String.append_assoc]⟩

theorem str_length_pos_of_ne_empty (s : String) (h : s ≠ "") : 0 < s.length := by
  cases s with
  | mk data =>
      cases data with
      | nil => exact absurd rfl h
      | cons c cs => simp [String.length]

theorem str_ne_empty_of_length_pos (s : String) (h : 0 < s.length) : s ≠ "" := by
  intro he
  rw [he] at h
  exact absurd h (by decide)

theorem srcBlock_length_pos (e : String × String × String × String) :
    0 < (srcBlock e).length := by
  simp only [srcBlock, String.length_append]
  have : 0 < ("--- SOURCE: " : String).length := by decide
  omega

theorem fetchContextOf_ne_empty {P : Type} (dumps : P → String)
    (dumpsErr : String → String) (fetch : Job → FetchRes P)
    (completed : List Job) (h : completed ≠ []) :
    fetchContextOf dumps dumpsErr fetch completed ≠ "" := by
  obtain ⟨j, rest, rfl⟩ := List.exists_cons_of_ne_nil h
  simp only [fetchContextOf, List.map_cons, List.isEmpty_cons,
    Bool.false_eq_true, if_false]
  obtain ⟨t, ht⟩ := pyJoin_cons "\n\n"
    (srcBlock (workerEntry dumps dumpsErr fetch j))
    (rest.map (fun j0 => srcBlock (workerEntry dumps dumpsErr fetch j0)))
  rw [ht]
  apply str_ne_empty_of_length_pos
  rw [String.length_append]
  have := srcBlock_length_pos (workerEntry dumps dumpsErr fetch j)
  omega

/-- Counterexample to claim C5 as stated: for the "electricity" job list with
every endpoint fetch failing and a non-empty similarity snippet, the
assembled context is not the similarity snippet alone — the failed fetches
still contribute `--- SOURCE: ... ---` error blocks ahead of it. -/
theorem allfail_context_counterexample :
    fetchContextOf id id exFetch exJobs ≠ "" ∧
    assembleContext (fetchContextOf id id exFetch exJobs) exChroma ≠ exChroma := by
  constructor <;> decide

/-- Amended claim C5: a failed fetch appends an error entry just like a
successful one, so when at least one job executes (even with every fetch
failing) the realtime context is non-empty and the similarity snippet is
attached as a supplemental section, not used alone; the similarity-only
fallback occurs exactly when the realtime context is empty. -/
theorem assemble_failed_fetch_blocks {P : Type} (dumps : P → String)
    (dumpsErr : String → String) (fetch : Job → FetchRes P)
    (completed : List Job) (chroma : String)
    (_hfail : ∀ j, ∃ e w, fetch j = FetchRes.err e w)
    (hne : completed ≠ []) (hch : chroma ≠ "") :
    fetchContextOf dumps dumpsErr fetch completed ≠ "" ∧
    assembleContext (fetchContextOf dumps dumpsErr fetch completed) chroma ≠
      chroma ∧
    assembleContext "" chroma = chroma := by
  have h1 := fetchContextOf_ne_empty dumps dumpsErr fetch completed hne
  refine ⟨h1, ?_, by simp [assembleContext]⟩
  simp only [assembleContext, if_pos h1, if_pos hch]
  intro heq
  have hlen := congrArg String.length heq
  rw [String.length_append, String.length_append] at hlen
  have hpos := str_length_pos_of_ne_empty _ h1
  omega

/-- Witness for C5 with one executed job, an always-failing fetch, and a
non-empty similarity snippet. -/
theorem assemble_failed_fetch_blocks_witness :
    fetchContextOf id id exFetch [("t", "u", [])] ≠ "" ∧
    assembleContext (fetchContextOf id id exFetch [("t", "u", [])])
      "--- Chunk 1 ---\nx" ≠ "--- Chunk 1 ---\nx" ∧
    assembleContext "" "--- Chunk 1 ---\nx" = "--- Chunk 1 ---\nx" :=
  assemble_failed_fetch_blocks id id exFetch [("t", "u", [])]
    "--- Chunk 1 ---\nx" (fun _ => ⟨"timeout", "0.00", rfl⟩)
    (by simp) (by decide)
